import Mathlib

/-!
# Verification of `Layout_detection.py`

A shallow embedding of the single procedure `detect_layout` of the repository
(PDF layout extraction and annotation built on pdfplumber and PyMuPDF), together
with proofs of the spec's testable properties.

Modelling conventions:
* A pdfplumber character record is a `PChar` carrying its text (a string,
  possibly several code points for ligatures; pdfplumber never emits an empty
  text) and its font size.  Font sizes are modelled as `ℚ` (exact rationals in
  place of Python floats; the program only ever compares them for equality and
  renders them).
* A page, as observed through the two libraries, is a `PageInput`: the result
  of `extract_text()` (with `""` standing for an absent/None text), the lists
  `extract_tables()`, `images`, `lines`, `chars`, and the list returned by the
  *separate* `find_tables()` invocation used only for drawing.
* Python `str.strip()` is modelled by `pyStrip` (drop whitespace from both
  ends), and the f-string `f"Size: {size}"` by `"Size: " ++ toString size`.
* Side effects (directory creation, console prints, file writes) are modelled
  as an explicit effect trace, with a failure oracle marking pages whose
  processing raises an exception.
-/

/-- A pdfplumber character record: its text, its font size (`char['size']`) and
the bounding box the annotation step reads. -/
structure PChar where
  text : String
  size : ℚ
  x0 : ℚ := 0
  top : ℚ := 0
  x1 : ℚ := 0
  bottom : ℚ := 0
deriving DecidableEq, Repr

/-- Geometry of a pdfplumber image record (the fields the program reads). -/
structure ImageRec where
  x0 : ℚ
  top : ℚ
  x1 : ℚ
  bottom : ℚ
deriving DecidableEq, Repr

/-- Geometry fields of a pdfplumber line record (stored verbatim in the report). -/
structure LineRec where
  x0 : ℚ
  y0 : ℚ
  x1 : ℚ
  y1 : ℚ
  top : ℚ
  bottom : ℚ
deriving DecidableEq, Repr

/-- A table found by pdfplumber's `find_tables()`; the program only reads its
bounding box. -/
structure TableRec where
  x0 : ℚ
  top : ℚ
  x1 : ℚ
  bottom : ℚ
deriving DecidableEq, Repr

/-- One page of the input PDF, as seen through the library calls the program
makes.  `find_tables` is the list returned by the second, independent
table-detection invocation (used only for drawing). -/
structure PageInput where
  extract_text : String
  tables : List (List (List (Option String)))
  images : List ImageRec
  lines : List LineRec
  chars : List PChar
  find_tables : List TableRec
deriving DecidableEq, Repr

/-- Python `str.strip()` on the character list: drop whitespace from both ends. -/
def pyStripL (l : List Char) : List Char :=
  ((l.dropWhile Char.isWhitespace).reverse.dropWhile Char.isWhitespace).reverse

/-- Python `str.strip()`. -/
def pyStrip (s : String) : String :=
  ⟨pyStripL s.data⟩

/-- Concatenation of the texts of a character run (`current_word` accumulation). -/
def concatText : List PChar → String
  | [] => ""
  | c :: r => c.text ++ concatText r

/-- Python ordered-dict insertion used at both flush sites:
`words_with_font_sizes[current_font_size]` is created as `[]` when the key is
absent (new keys go to the end, preserving insertion order) and the word is
appended to the bucket. -/
def insertWord : List (ℚ × List String) → ℚ → String → List (ℚ × List String)
  | [], s, w => [(s, [w])]
  | p :: rest, s, w =>
    if p.1 = s then (p.1, p.2 ++ [w]) :: rest else p :: insertWord rest s w

/-- The loop state of the character-grouping loop: the ordered dictionary,
`current_word` and `current_font_size`. -/
structure WState where
  od : List (ℚ × List String)
  cw : String
  cfs : Option ℚ
deriving DecidableEq, Repr

/-- One iteration of `for char in chars`: if `current_font_size` is `None` or
equals the char's size the char's text is appended to `current_word`; otherwise
the stripped `current_word` is flushed into the dictionary and a new word starts. -/
def stepChar (st : WState) (c : PChar) : WState :=
  match st.cfs with
  | none => { st with cw := st.cw ++ c.text, cfs := some c.size }
  | some fs =>
    if fs = c.size then
      { st with cw := st.cw ++ c.text, cfs := some c.size }
    else
      { od := insertWord st.od fs (pyStrip st.cw), cw := c.text, cfs := some c.size }

/-- The trailing flush: `if current_word:` appends the stripped buffer under
`current_font_size`.  (When `current_word` is non-empty at least one character
was seen, so `current_font_size` is set; the `none` branch is unreachable.) -/
def finishW (st : WState) : List (ℚ × List String) :=
  if st.cw = "" then st.od
  else
    match st.cfs with
    | some fs => insertWord st.od fs (pyStrip st.cw)
    | none => st.od

/-- The whole `words_with_font_sizes` computation of `detect_layout`
(source lines 35–61), before the key-rendering comprehension. -/
def wordsWithFontSizes (chars : List PChar) : List (ℚ × List String) :=
  finishW (chars.foldl stepChar ⟨[], "", none⟩)

/-- The value stored under the `"text"` key of a page record.  In the source the
variable `text` is bound to `page.extract_text()` (line 25) and then *shadowed*
by `text = char['text']` inside the char loop (line 41), so after a non-empty
char list it holds the last character's text. -/
def storedText (p : PageInput) : String :=
  match p.chars.getLast? with
  | some c => c.text
  | none => p.extract_text

/-- `text.split("\n")[0] if text else ""` (source line 32), evaluated before the
char loop shadows `text`. -/
def firstLine (text : String) : String :=
  if text = "" then "" else (text.splitOn "\n").headD ""

/-- The per-page record appended to `results["pages"]` (source lines 64–77). -/
structure PageData where
  page_number : Nat
  title : String
  text : String
  tables_count : Nat
  images_count : Nat
  tables : List (List (List (Option String)))
  lines_count : Nat
  lines : List LineRec
  words_with_font_sizes : List (String × List String)
deriving DecidableEq, Repr

/-- Processing of page `i` (0-based) into its `page_data` record. -/
def processPage (i : Nat) (p : PageInput) : PageData :=
  { page_number := i + 1
    title := pyStrip (firstLine p.extract_text)
    text := storedText p
    tables_count := p.tables.length
    images_count := p.images.length
    tables := p.tables
    lines_count := p.lines.length
    lines := p.lines
    words_with_font_sizes :=
      (wordsWithFontSizes p.chars).map fun pr => ("Size: " ++ toString pr.1, pr.2) }

/-- The in-memory `results` dictionary. -/
structure Results where
  pdf_path : String
  pages : List PageData
deriving DecidableEq, Repr

/-- The page loop, carrying the 0-based index `i` of `enumerate(pdf.pages)`. -/
def detectLayoutFrom (i : Nat) : List PageInput → List PageData
  | [] => []
  | p :: rest => processPage i p :: detectLayoutFrom (i + 1) rest

/-- The pure content of `detect_layout`: the `results` structure that is
serialized to the JSON report. -/
def detect_layout (pdf_path : String) (inputs : List PageInput) : Results :=
  { pdf_path := pdf_path, pages := detectLayoutFrom 0 inputs }

/-! ## The annotation overlay (source lines 80–97)

The second handle (`fitz.open`) opens the same file, so it sees the same page
sequence; drawing never adds or removes pages.  Each drawn rectangle carries the
fixed colour `(1, 0, 0)` and stroke width `2`. -/

/-- One rectangle drawn by `pdf_page.draw_rect`. -/
structure DrawnRect where
  x0 : ℚ
  top : ℚ
  x1 : ℚ
  bottom : ℚ
  color : ℚ × ℚ × ℚ
  width : ℚ
deriving DecidableEq, Repr

/-- The rectangles drawn on one page: every image's bounding box, every
`find_tables()` bounding box, then every character's bounding box, all red with
width 2. -/
def annotatePage (p : PageInput) : List DrawnRect :=
  (p.images.map fun im => ⟨im.x0, im.top, im.x1, im.bottom, (1, 0, 0), 2⟩)
    ++ (p.find_tables.map fun t => ⟨t.x0, t.top, t.x1, t.bottom, (1, 0, 0), 2⟩)
    ++ (p.chars.map fun c => ⟨c.x0, c.top, c.x1, c.bottom, (1, 0, 0), 2⟩)

/-- The annotated document: the overlay drawn page by page on the `fitz` copy of
the input. -/
def annotatedDoc (inputs : List PageInput) : List (List DrawnRect) :=
  inputs.map annotatePage

/-! ## The effect trace

`detect_layout` performs, in order: `os.makedirs(os.path.dirname(json), exist_ok=True)`,
one progress print per page, `pdf_document.save(pdf)`, a print, `json.dump` and a
final print.  An exception while processing page `k` (modelled by a failure
oracle; the progress line for page `k` has already printed) aborts the run
before the save and the JSON write. -/

inductive Effect where
  /-- `os.makedirs(os.path.dirname(path), exist_ok=True)`. -/
  | mkdirParent (path : String)
  /-- A console print. -/
  | consoleOut (s : String)
  /-- `pdf_document.save(path)`. -/
  | savePdf (path : String)
  /-- `json.dump(results, open(path, 'w'), indent=4)`. -/
  | writeJson (path : String)
deriving DecidableEq, Repr

/-- The page loop's effects: each iteration prints its progress line; if the
oracle says page `i` raises, the loop (and the whole call) stops there. -/
def pageLoop (fails : Nat → Bool) : Nat → Nat → List Effect × Bool
  | _, 0 => ([], true)
  | i, n + 1 =>
    if fails i then ([.consoleOut ("Processing page " ++ toString (i + 1))], false)
    else
      let r := pageLoop fails (i + 1) n
      (.consoleOut ("Processing page " ++ toString (i + 1)) :: r.1, r.2)

/-- The effect trace of one `detect_layout` call on an `n`-page PDF, given the
failure oracle. -/
def detectLayoutTrace (output_pdf_path output_json_path : String) (n : Nat)
    (fails : Nat → Bool) : List Effect :=
  let r := pageLoop fails 0 n
  Effect.mkdirParent output_json_path ::
    r.1 ++
      (if r.2 then
        [.savePdf output_pdf_path,
         .consoleOut ("Annotated PDF saved as " ++ output_pdf_path),
         .writeJson output_json_path,
         .consoleOut ("Results saved to " ++ output_json_path)]
      else [])

/-! ## JSON serialization (source lines 104–105)

`json.dump(results, json_file, indent=4)` serializes the `results` dictionary;
a standard JSON parser reading the file back yields the same JSON value (the
text layer is the library's, so the round trip is stated at the level of JSON
values: decoding the encoded structure loses nothing). -/

/-- A JSON value. -/
inductive Json where
  | null
  | str (s : String)
  | num (q : ℚ)
  | nat (n : Nat)
  | arr (xs : List Json)
  | obj (fields : List (String × Json))
deriving Inhabited

/-- A table cell: `None` becomes JSON `null`. -/
def encodeCell : Option String → Json
  | none => .null
  | some s => .str s

/-- The `tables` value: array of tables, each an array of rows of cells. -/
def encodeTables (ts : List (List (List (Option String)))) : Json :=
  .arr (ts.map fun t => .arr (t.map fun row => .arr (row.map encodeCell)))

/-- A line record serializes as an object of its numeric geometry fields. -/
def encodeLine (l : LineRec) : Json :=
  .obj [("x0", .num l.x0), ("y0", .num l.y0), ("x1", .num l.x1),
        ("y1", .num l.y1), ("top", .num l.top), ("bottom", .num l.bottom)]

/-- A page record, with keys in the order of the source dict literal
(lines 64–77). -/
def encodePage (pd : PageData) : Json :=
  .obj [("page_number", .nat pd.page_number),
        ("title", .str pd.title),
        ("text", .str pd.text),
        ("tables_count", .nat pd.tables_count),
        ("images_count", .nat pd.images_count),
        ("tables", encodeTables pd.tables),
        ("lines_count", .nat pd.lines_count),
        ("lines", .arr (pd.lines.map encodeLine)),
        ("words_with_font_sizes",
          .obj (pd.words_with_font_sizes.map fun kv => (kv.1, .arr (kv.2.map .str))))]

/-- The whole report. -/
def encodeResults (r : Results) : Json :=
  .obj [("pdf_path", .str r.pdf_path), ("pages", .arr (r.pages.map encodePage))]

/-- Decoding a cell back. -/
def decodeCell : Json → Option (Option String)
  | .null => some none
  | .str s => some (some s)
  | _ => none

/-- Decoding one table row back. -/
def decodeRow : Json → Option (List (Option String))
  | .arr cells => cells.mapM decodeCell
  | _ => none

/-- Decoding one table back. -/
def decodeTable : Json → Option (List (List (Option String)))
  | .arr rows => rows.mapM decodeRow
  | _ => none

/-- Decoding the `tables` value back. -/
def decodeTables : Json → Option (List (List (List (Option String))))
  | .arr ts => ts.mapM decodeTable
  | _ => none

/-- Decoding a line record back. -/
def decodeLine : Json → Option LineRec
  | .obj [("x0", .num x0), ("y0", .num y0), ("x1", .num x1),
          ("y1", .num y1), ("top", .num top), ("bottom", .num bottom)] =>
    some ⟨x0, y0, x1, y1, top, bottom⟩
  | _ => none

/-- Decoding one bucket of `words_with_font_sizes` back. -/
def decodeBucket (kv : String × Json) : Option (String × List String) :=
  match kv.2 with
  | .arr ws =>
    (ws.mapM fun w => match w with | Json.str s => (some s : Option String) | _ => none).map
      fun l => (kv.1, l)
  | _ => none

/-- Decoding a page record back. -/
def decodePage : Json → Option PageData
  | .obj [("page_number", .nat n),
          ("title", .str ti),
          ("text", .str tx),
          ("tables_count", .nat tc),
          ("images_count", .nat ic),
          ("tables", tj),
          ("lines_count", .nat lc),
          ("lines", .arr lj),
          ("words_with_font_sizes", .obj wj)] => do
    let tables ← decodeTables tj
    let lines ← lj.mapM decodeLine
    let words ← wj.mapM decodeBucket
    some ⟨n, ti, tx, tc, ic, tables, lc, lines, words⟩
  | _ => none

/-- Decoding the whole report back. -/
def decodeResults : Json → Option Results
  | .obj [("pdf_path", .str p), ("pages", .arr pgs)] =>
    (pgs.mapM decodePage).map fun pages => ⟨p, pages⟩
  | _ => none

/-! ### The documented shape (spec §6) -/

/-- A cell is a string or null. -/
def cellShape : Json → Bool
  | .null => true
  | .str _ => true
  | _ => false

/-- `tables` is an array of arrays of arrays of cells. -/
def tablesShape : Json → Bool
  | .arr ts =>
    ts.all fun t =>
      match t with
      | .arr rows =>
        rows.all fun row =>
          match row with
          | .arr cells => cells.all cellShape
          | _ => false
      | _ => false
  | _ => false

/-- A line is an object of numeric geometry fields. -/
def lineShape : Json → Bool
  | .obj fs => fs.all fun kv => match kv.2 with | .num _ => true | _ => false
  | _ => false

/-- A `words_with_font_sizes` key reads `"Size: <number>"`: it starts with the
display text `"Size: "`. -/
def sizeKeyShape (k : String) : Bool :=
  k.data.take 6 = "Size: ".data

/-- Each bucket is an array of strings under a `"Size: <number>"` key. -/
def wordsShape : Json → Bool
  | .obj fs =>
    fs.all fun kv =>
      sizeKeyShape kv.1 &&
        match kv.2 with
        | .arr ws => ws.all fun w => match w with | .str _ => true | _ => false
        | _ => false
  | _ => false

/-- A page record has exactly the nine documented keys with the documented
value shapes. -/
def pageShape : Json → Bool
  | .obj [("page_number", .nat _),
          ("title", .str _),
          ("text", .str _),
          ("tables_count", .nat _),
          ("images_count", .nat _),
          ("tables", tj),
          ("lines_count", .nat _),
          ("lines", .arr lj),
          ("words_with_font_sizes", wj)] =>
    tablesShape tj && lj.all lineShape && wordsShape wj
  | _ => false

/-- The report is an object with a string `pdf_path` and an array of
page-shaped records. -/
def reportShape : Json → Bool
  | .obj [("pdf_path", .str _), ("pages", .arr pgs)] => pgs.all pageShape
  | _ => false

/-! ## The spec's view of the word grouping

The spec describes `words_with_font_sizes` as a partition of the page's
characters into maximal contiguous runs of equal font size.  `chunks` is that
partition, written directly from the spec's words; the development below proves
that the loop in the source computes exactly the stripped rendering of it. -/

instance : Inhabited PChar := ⟨{ text := "", size := 0 }⟩

/-- `sameSize s d` tests whether character `d` has font size `s`. -/
def sameSize (s : ℚ) (d : PChar) : Bool :=
  decide (d.size = s)

/-- An auxiliary bound used for termination of `chunks`. -/
theorem dropWhile_length_le {α : Type} (p : α → Bool) (l : List α) :
    (l.dropWhile p).length ≤ l.length := by
  induction l with
  | nil => simp [List.dropWhile]
  | cons c cs ih =>
    by_cases h : p c
    · simp only [List.dropWhile, h]
      exact Nat.le_succ_of_le ih
    · simp [List.dropWhile, h]

/-- The spec's partition: maximal contiguous runs of equal font size, in
extraction order. -/
def chunks : List PChar → List (List PChar)
  | [] => []
  | c :: cs =>
    (c :: cs.takeWhile (sameSize c.size)) :: chunks (cs.dropWhile (sameSize c.size))
termination_by l => l.length
decreasing_by
  simp only [List.length_cons]
  exact Nat.lt_succ_of_le (dropWhile_length_le _ _)

/-- The font size of a run (the size of its first character). -/
def headSize (r : List PChar) : ℚ :=
  (r.headD default).size

/-- The runs of a character list as `(size, concatenated text)` pairs, carrying
the run in progress — the same left-to-right recursion the loop performs. -/
def runsFrom (s : ℚ) (w : String) : List PChar → List (ℚ × String)
  | [] => [(s, w)]
  | c :: cs =>
    if s = c.size then runsFrom s (w ++ c.text) cs
    else (s, w) :: runsFrom c.size c.text cs

/-- All runs of a character list, as `(size, concatenated text)` pairs. -/
def runs : List PChar → List (ℚ × String)
  | [] => []
  | c :: cs => runsFrom c.size c.text cs

/-- Folding the flush operation over a run list, from a given dictionary:
each run is inserted under its size, stripped. -/
def bucketizeFrom (od : List (ℚ × List String)) (prs : List (ℚ × String)) :
    List (ℚ × List String) :=
  prs.foldl (fun od pr => insertWord od pr.1 (pyStrip pr.2)) od

/-- The dictionary obtained by flushing every run in order. -/
def bucketize (prs : List (ℚ × String)) : List (ℚ × List String) :=
  bucketizeFrom [] prs

/-- Bucket lookup in the ordered dictionary (`[]` when the key is absent). -/
def lookupBucket : List (ℚ × List String) → ℚ → List String
  | [], _ => []
  | p :: rest, s => if p.1 = s then p.2 else lookupBucket rest s

/-! ### String helpers -/

theorem string_ne_empty_iff (s : String) : s ≠ "" ↔ s.data ≠ [] := by
  constructor
  · intro h hd
    exact h (String.ext_iff.mpr hd)
  · intro h hd
    exact h (String.ext_iff.mp hd)

theorem append_ne_empty_left (a b : String) (h : a ≠ "") : a ++ b ≠ "" := by
  rw [string_ne_empty_iff] at h ⊢
  rw [String.data_append]
  intro hn
  exact h (List.append_eq_nil.mp hn).1

theorem concatText_ne_empty (r : List PChar) (hr : r ≠ [])
    (h : ∀ c ∈ r, c.text ≠ "") : concatText r ≠ "" := by
  cases r with
  | nil => exact absurd rfl hr
  | cons c cs =>
    exact append_ne_empty_left _ _ (h c (List.mem_cons_self c cs))

/-! ### dropWhile / takeWhile helpers -/

theorem dropWhile_head_false {α : Type} (p : α → Bool) (l : List α) (x : α) (xs : List α)
    (h : l.dropWhile p = x :: xs) : p x = false := by
  induction l with
  | nil => simp [List.dropWhile] at h
  | cons c cs ih =>
    by_cases hc : p c
    · rw [List.dropWhile_cons, if_pos hc] at h
      exact ih h
    · rw [List.dropWhile_cons, if_neg hc] at h
      cases h
      simpa using hc

theorem dropWhile_getLast? {α : Type} (p : α → Bool) (l : List α)
    (h : l.dropWhile p ≠ []) : (l.dropWhile p).getLast? = l.getLast? := by
  induction l with
  | nil => simp [List.dropWhile] at h
  | cons c cs ih =>
    by_cases hc : p c
    · rw [List.dropWhile_cons, if_pos hc] at h ⊢
      have hcs : cs ≠ [] := by
        intro he
        rw [he] at h
        simp [List.dropWhile] at h
      cases cs with
      | nil => exact absurd rfl hcs
      | cons d ds => rw [ih h, List.getLast?_cons_cons]
    · rw [List.dropWhile_cons, if_neg hc]

/-! ### pyStrip lemmas -/

theorem pyStripL_head {l : List Char} {c : Char}
    (h : (pyStripL l).head? = some c) : c.isWhitespace = false := by
  unfold pyStripL at h
  set m := (l.dropWhile Char.isWhitespace).reverse.dropWhile Char.isWhitespace with hm
  rw [List.head?_reverse] at h
  have hmne : m ≠ [] := by
    intro he
    rw [he] at h
    simp at h
  rw [hm, dropWhile_getLast? _ _ (hm ▸ hmne), List.getLast?_reverse] at h
  cases hdw : (l.dropWhile Char.isWhitespace) with
  | nil => rw [hdw] at h; simp at h
  | cons d ds =>
    rw [hdw] at h
    simp only [List.head?_cons, Option.some_inj] at h
    subst h
    exact dropWhile_head_false _ _ _ _ hdw

theorem pyStripL_getLast {l : List Char} {c : Char}
    (h : (pyStripL l).getLast? = some c) : c.isWhitespace = false := by
  unfold pyStripL at h
  rw [List.getLast?_reverse] at h
  cases hdw : ((l.dropWhile Char.isWhitespace).reverse.dropWhile Char.isWhitespace) with
  | nil => rw [hdw] at h; simp at h
  | cons d ds =>
    rw [hdw] at h
    simp only [List.head?_cons, Option.some_inj] at h
    subst h
    exact dropWhile_head_false _ _ _ _ hdw

theorem pyStripL_all_ws {l : List Char} (h : ∀ c ∈ l, c.isWhitespace = true) :
    pyStripL l = [] := by
  unfold pyStripL
  rw [List.dropWhile_eq_nil_iff.mpr h]
  rfl

/-- A string with neither leading nor trailing whitespace. -/
def strippedOk (w : String) : Bool :=
  (match w.data.head? with
   | some c => !c.isWhitespace
   | none => true) &&
  (match w.data.getLast? with
   | some c => !c.isWhitespace
   | none => true)

theorem pyStrip_strippedOk (s : String) : strippedOk (pyStrip s) = true := by
  have hd : (pyStrip s).data = pyStripL s.data := rfl
  unfold strippedOk
  rw [hd]
  rw [Bool.and_eq_true]
  constructor
  · cases hh : (pyStripL s.data).head? with
    | none => rfl
    | some c => simp [pyStripL_head hh]
  · cases hh : (pyStripL s.data).getLast? with
    | none => rfl
    | some c => simp [pyStripL_getLast hh]

theorem pyStrip_all_ws {s : String} (h : ∀ c ∈ s.data, c.isWhitespace = true) :
    pyStrip s = "" := by
  apply String.ext_iff.mpr
  show pyStripL s.data = "".data
  rw [pyStripL_all_ws h]

/-! ### The loop computes the stripped run list -/

theorem foldl_stepChar_run (cs : List PChar) :
    ∀ (od : List (ℚ × List String)) (w : String) (s : ℚ),
      w ≠ "" → (∀ c ∈ cs, c.text ≠ "") →
      finishW (cs.foldl stepChar ⟨od, w, some s⟩) = bucketizeFrom od (runsFrom s w cs) := by
  induction cs with
  | nil =>
    intro od w s hw _
    simp [finishW, runsFrom, bucketizeFrom, hw]
  | cons c cs ih =>
    intro od w s hw htext
    rw [List.foldl_cons]
    by_cases h : s = c.size
    · have hstep : stepChar ⟨od, w, some s⟩ c = ⟨od, w ++ c.text, some c.size⟩ := by
        simp [stepChar, h]
      rw [hstep, runsFrom, if_pos h, h]
      exact ih od (w ++ c.text) c.size (append_ne_empty_left _ _ hw)
        fun d hd => htext d (List.mem_cons_of_mem c hd)
    · have hstep : stepChar ⟨od, w, some s⟩ c
          = ⟨insertWord od s (pyStrip w), c.text, some c.size⟩ := by
        simp [stepChar, h]
      rw [hstep, runsFrom, if_neg h]
      rw [ih (insertWord od s (pyStrip w)) c.text c.size
            (htext c (List.mem_cons_self c cs))
            (fun d hd => htext d (List.mem_cons_of_mem c hd))]
      rfl

theorem wordsWithFontSizes_eq_bucketize (chars : List PChar)
    (h : ∀ c ∈ chars, c.text ≠ "") :
    wordsWithFontSizes chars = bucketize (runs chars) := by
  cases chars with
  | nil => rfl
  | cons c cs =>
    unfold wordsWithFontSizes runs bucketize
    rw [List.foldl_cons]
    have hstep : stepChar ⟨[], "", none⟩ c = ⟨[], c.text, some c.size⟩ := by
      simp [stepChar]
    rw [hstep]
    exact foldl_stepChar_run cs [] c.text c.size
      (h c (List.mem_cons_self c cs))
      fun d hd => h d (List.mem_cons_of_mem c hd)

/-! ### Runs coincide with the spec's maximal-chunk partition -/

theorem runsFrom_eq (cs : List PChar) :
    ∀ s w, runsFrom s w cs =
      (s, w ++ concatText (cs.takeWhile (sameSize s))) :: runs (cs.dropWhile (sameSize s)) := by
  induction cs with
  | nil =>
    intro s w
    simp [runsFrom, concatText, runs, List.takeWhile, List.dropWhile]
  | cons c cs ih =>
    intro s w
    by_cases h : s = c.size
    · have hsc : sameSize s c = true := by
        simp [sameSize, h.symm]
      rw [runsFrom, if_pos h, ih, List.takeWhile_cons_of_pos hsc,
        List.dropWhile_cons_of_pos hsc]
      simp [concatText, String.append_assoc]
    · have hsc : ¬ sameSize s c = true := by
        have hne : ¬(c.size = s) := fun he => h he.symm
        simp [sameSize, hne]
      rw [runsFrom, if_neg h, List.takeWhile_cons_of_neg hsc,
        List.dropWhile_cons_of_neg hsc]
      simp [concatText, runs]

theorem runs_eq_chunks_aux :
    ∀ (n : Nat) (l : List PChar), l.length ≤ n →
      runs l = (chunks l).map fun r => (headSize r, concatText r) := by
  intro n
  induction n with
  | zero =>
    intro l hl
    have : l = [] := List.eq_nil_of_length_eq_zero (Nat.le_zero.mp hl)
    subst this
    simp [runs, chunks]
  | succ n ih =>
    intro l hl
    cases l with
    | nil => simp [runs, chunks]
    | cons c cs =>
      rw [runs, runsFrom_eq, chunks, List.map_cons,
        ih (cs.dropWhile (sameSize c.size))
          (le_trans (dropWhile_length_le _ _) (Nat.le_of_succ_le_succ hl))]
      simp [headSize, concatText]

theorem runs_eq_chunks (l : List PChar) :
    runs l = (chunks l).map fun r => (headSize r, concatText r) :=
  runs_eq_chunks_aux l.length l le_rfl

theorem chunks_flatten_aux :
    ∀ (n : Nat) (l : List PChar), l.length ≤ n → (chunks l).flatten = l := by
  intro n
  induction n with
  | zero =>
    intro l hl
    have : l = [] := List.eq_nil_of_length_eq_zero (Nat.le_zero.mp hl)
    subst this
    simp [chunks]
  | succ n ih =>
    intro l hl
    cases l with
    | nil => simp [chunks]
    | cons c cs =>
      rw [chunks, List.flatten_cons]
      rw [ih (cs.dropWhile (sameSize c.size))
          (le_trans (dropWhile_length_le _ _) (Nat.le_of_succ_le_succ hl))]
      rw [List.cons_append]
      rw [List.takeWhile_append_dropWhile]

theorem chunks_flatten (l : List PChar) : (chunks l).flatten = l :=
  chunks_flatten_aux l.length l le_rfl

theorem chunks_runs_shape_aux :
    ∀ (n : Nat) (l : List PChar), l.length ≤ n →
      ∀ r ∈ chunks l, r ≠ [] ∧ ∀ c ∈ r, c.size = headSize r := by
  intro n
  induction n with
  | zero =>
    intro l hl
    have : l = [] := List.eq_nil_of_length_eq_zero (Nat.le_zero.mp hl)
    subst this
    simp [chunks]
  | succ n ih =>
    intro l hl r hr
    cases l with
    | nil => simp [chunks] at hr
    | cons c cs =>
      rw [chunks] at hr
      rcases List.mem_cons.mp hr with hr | hr
      · subst hr
        refine ⟨by simp, ?_⟩
        intro d hd
        rcases List.mem_cons.mp hd with hd | hd
        · subst hd; rfl
        · have := List.mem_takeWhile_imp hd
          simp only [sameSize, decide_eq_true_eq] at this
          simpa [headSize] using this
      · exact ih (cs.dropWhile (sameSize c.size))
          (le_trans (dropWhile_length_le _ _) (Nat.le_of_succ_le_succ hl)) r hr

theorem chunks_runs_shape (l : List PChar) :
    ∀ r ∈ chunks l, r ≠ [] ∧ ∀ c ∈ r, c.size = headSize r :=
  chunks_runs_shape_aux l.length l le_rfl

theorem chunks_maximal_aux :
    ∀ (n : Nat) (l : List PChar), l.length ≤ n →
      List.Chain' (fun r₁ r₂ => headSize r₁ ≠ headSize r₂) (chunks l) := by
  intro n
  induction n with
  | zero =>
    intro l hl
    have : l = [] := List.eq_nil_of_length_eq_zero (Nat.le_zero.mp hl)
    subst this
    simp [chunks]
  | succ n ih =>
    intro l hl
    cases l with
    | nil => simp [chunks]
    | cons c cs =>
      rw [chunks]
      apply List.chain'_cons'.mpr
      constructor
      · intro b hb
        cases hdw : cs.dropWhile (sameSize c.size) with
        | nil => rw [hdw] at hb; simp [chunks] at hb
        | cons d ds =>
          rw [hdw, chunks] at hb
          simp only [List.head?_cons, Option.mem_def, Option.some_inj] at hb
          subst hb
          have hfd : sameSize c.size d = false := dropWhile_head_false _ _ _ _ hdw
          simp only [sameSize, decide_eq_false_iff_not] at hfd
          simp only [headSize, List.headD_cons]
          exact fun he => hfd he.symm
      · exact ih (cs.dropWhile (sameSize c.size))
          (le_trans (dropWhile_length_le _ _) (Nat.le_of_succ_le_succ hl))

theorem chunks_maximal (l : List PChar) :
    List.Chain' (fun r₁ r₂ => headSize r₁ ≠ headSize r₂) (chunks l) :=
  chunks_maximal_aux l.length l le_rfl

/-! ### Bucket lookup -/

theorem lookupBucket_insertWord_self (od : List (ℚ × List String)) (s : ℚ) (w : String) :
    lookupBucket (insertWord od s w) s = lookupBucket od s ++ [w] := by
  induction od with
  | nil => simp [insertWord, lookupBucket]
  | cons p rest ih =>
    by_cases h : p.1 = s
    · simp [insertWord, lookupBucket, h]
    · simp [insertWord, lookupBucket, h, ih]

theorem lookupBucket_insertWord_ne (od : List (ℚ × List String)) (s : ℚ) (w : String)
    (s' : ℚ) (h : s' ≠ s) :
    lookupBucket (insertWord od s w) s' = lookupBucket od s' := by
  induction od with
  | nil =>
    have : ¬(s = s') := fun he => h he.symm
    simp [insertWord, lookupBucket, this]
  | cons p rest ih =>
    have hss : ¬(s = s') := fun he => h he.symm
    by_cases hp : p.1 = s
    · simp [insertWord, lookupBucket, hp, hss]
    · by_cases hq : p.1 = s'
      · simp [insertWord, lookupBucket, hp, hq, h, hss]
      · simp [insertWord, lookupBucket, hp, hq, ih]

theorem lookupBucket_bucketizeFrom (prs : List (ℚ × String)) :
    ∀ (od : List (ℚ × List String)) (s : ℚ),
      lookupBucket (bucketizeFrom od prs) s
        = lookupBucket od s
            ++ (prs.filter fun pr => decide (pr.1 = s)).map fun pr => pyStrip pr.2 := by
  induction prs with
  | nil => intro od s; simp [bucketizeFrom]
  | cons pr rest ih =>
    intro od s
    have hstep : bucketizeFrom od (pr :: rest)
        = bucketizeFrom (insertWord od pr.1 (pyStrip pr.2)) rest := rfl
    rw [hstep, ih]
    by_cases h : pr.1 = s
    · rw [h, lookupBucket_insertWord_self]
      simp [h]
    · have h' : s ≠ pr.1 := fun he => h he.symm
      rw [lookupBucket_insertWord_ne od pr.1 (pyStrip pr.2) s h']
      simp [h]

/-- The per-size bucket of the loop's dictionary is the in-order list of the
stripped texts of exactly the runs of that size. -/
theorem lookupBucket_words (chars : List PChar) (h : ∀ c ∈ chars, c.text ≠ "") (s : ℚ) :
    lookupBucket (wordsWithFontSizes chars) s
      = ((chunks chars).filter fun r => decide (headSize r = s)).map
          fun r => pyStrip (concatText r) := by
  rw [wordsWithFontSizes_eq_bucketize chars h, bucketize, lookupBucket_bucketizeFrom,
    runs_eq_chunks, List.filter_map, List.map_map]
  simp only [lookupBucket, List.nil_append]
  rfl

/-! ### Every emitted word is a stripped string -/

theorem mem_insertWord_words (od : List (ℚ × List String)) (s : ℚ) (w : String) :
    ∀ pr ∈ insertWord od s w, ∀ x ∈ pr.2,
      (∃ pr' ∈ od, x ∈ pr'.2) ∨ x = w := by
  induction od with
  | nil =>
    intro pr hpr x hx
    simp [insertWord] at hpr
    subst hpr
    simp at hx
    exact Or.inr hx
  | cons p rest ih =>
    intro pr hpr x hx
    by_cases h : p.1 = s
    · rw [insertWord, if_pos h] at hpr
      rcases List.mem_cons.mp hpr with hpr | hpr
      · subst hpr
        rcases List.mem_append.mp hx with hx | hx
        · exact Or.inl ⟨p, List.mem_cons_self p rest, hx⟩
        · simp at hx
          exact Or.inr hx
      · exact Or.inl ⟨pr, List.mem_cons_of_mem p hpr, hx⟩
    · rw [insertWord, if_neg h] at hpr
      rcases List.mem_cons.mp hpr with hpr | hpr
      · subst hpr
        exact Or.inl ⟨pr, List.mem_cons_self pr rest, hx⟩
      · rcases ih pr hpr x hx with ⟨pr', hpr', hx'⟩ | hx'
        · exact Or.inl ⟨pr', List.mem_cons_of_mem p hpr', hx'⟩
        · exact Or.inr hx'

theorem mem_bucketizeFrom_words (prs : List (ℚ × String)) :
    ∀ (od : List (ℚ × List String)), ∀ pr ∈ bucketizeFrom od prs, ∀ x ∈ pr.2,
      (∃ pr' ∈ od, x ∈ pr'.2) ∨ ∃ q ∈ prs, x = pyStrip q.2 := by
  induction prs with
  | nil =>
    intro od pr hpr x hx
    exact Or.inl ⟨pr, hpr, hx⟩
  | cons q rest ih =>
    intro od pr hpr x hx
    have hstep : bucketizeFrom od (q :: rest)
        = bucketizeFrom (insertWord od q.1 (pyStrip q.2)) rest := rfl
    rw [hstep] at hpr
    rcases ih _ pr hpr x hx with ⟨pr', hpr', hx'⟩ | ⟨q', hq', hx'⟩
    · rcases mem_insertWord_words od q.1 (pyStrip q.2) pr' hpr' x hx' with h | h
      · exact Or.inl h
      · exact Or.inr ⟨q, List.mem_cons_self q rest, h⟩
    · exact Or.inr ⟨q', List.mem_cons_of_mem q hq', hx'⟩

/-! ## Claim theorems -/

theorem detectLayoutFrom_page_numbers (inputs : List PageInput) :
    ∀ i, (detectLayoutFrom i inputs).map (fun pd => pd.page_number)
      = List.range' (i + 1) inputs.length := by
  induction inputs with
  | nil => intro i; rfl
  | cons p rest ih =>
    intro i
    simp only [detectLayoutFrom, List.map_cons, List.length_cons, List.range'_succ]
    rw [ih (i + 1)]
    rfl

/-- C3: for an N-page input the report's `pages` array has exactly N entries
whose `page_number` values are 1..N in order. -/
theorem claim_c3_page_numbers (pdf_path : String) (inputs : List PageInput) :
    (detect_layout pdf_path inputs).pages.length = inputs.length
    ∧ (detect_layout pdf_path inputs).pages.map (fun pd => pd.page_number)
        = List.range' 1 inputs.length := by
  constructor
  · have h := congrArg List.length (detectLayoutFrom_page_numbers inputs 0)
    rw [List.length_map] at h
    simpa using h
  · exact detectLayoutFrom_page_numbers inputs 0

/-- A page with extracted text `t` and no tables, images, lines or characters. -/
def emptyPage (t : String) : PageInput :=
  { extract_text := t
    tables := []
    images := []
    lines := []
    chars := []
    find_tables := [] }

/-- C8: a zero-page PDF yields an empty `pages` array, and a page with no
tables, images, lines or characters yields zero counts and an empty
`words_with_font_sizes` mapping; every function involved is total, so no fault
arises. -/
theorem claim_c8_empty_elements (pdf_path t : String) (i : Nat) :
    (detect_layout pdf_path []).pages = []
    ∧ (processPage i (emptyPage t)).tables_count = 0
    ∧ (processPage i (emptyPage t)).images_count = 0
    ∧ (processPage i (emptyPage t)).lines_count = 0
    ∧ (processPage i (emptyPage t)).words_with_font_sizes = [] :=
  ⟨rfl, rfl, rfl, rfl, rfl⟩

/-- The page used to exhibit the `text`-field divergence: its full extracted
text is `"ab\ncd"` but its last character's text is `"b"`. -/
def c1Page : PageInput :=
  { extract_text := "ab\ncd", tables := [], images := [], lines := [],
    chars := [{ text := "a", size := 12 }, { text := "b", size := 12 }],
    find_tables := [] }

/-- C1 fails on the code: because the loop variable `text = char['text']`
shadows `text = page.extract_text()`, the stored `"text"` field is the last
character's text, not the page's full extracted text. -/
theorem claim_c1_text_field_divergence :
    (processPage 0 c1Page).text = "b"
    ∧ c1Page.extract_text = "ab\ncd"
    ∧ (processPage 0 c1Page).text ≠ c1Page.extract_text :=
  ⟨rfl, rfl, by decide⟩

/-- The page used to exhibit the empty-text divergence: `extract_text` is empty
(as pdfplumber reports for a page whose only characters are blank) while the
char list holds a single space character. -/
def c4Page : PageInput :=
  { extract_text := "", tables := [], images := [], lines := [],
    chars := [{ text := " ", size := 12 }], find_tables := [] }

/-- C4 fails on the code for the `text` half: on a page with empty extracted
text but a non-empty char list the stored `text` is the last char's text, not
`""`; the `title` half and the continuation of processing hold. -/
theorem claim_c4_empty_text_divergence :
    (processPage 0 c4Page).title = ""
    ∧ (processPage 0 c4Page).text = " "
    ∧ (processPage 0 c4Page).text ≠ ""
    ∧ (detect_layout "input.pdf" [c4Page, c4Page]).pages.length = 2 :=
  ⟨rfl, rfl, by decide, rfl⟩

theorem annotate_counts (inputs : List PageInput) :
    ∀ i, (annotatedDoc inputs).map List.length
      = List.zipWith (fun pd p => pd.images_count + p.find_tables.length + p.chars.length)
          (detectLayoutFrom i inputs) inputs := by
  induction inputs with
  | nil => intro i; rfl
  | cons p rest ih =>
    intro i
    simp only [annotatedDoc, List.map_cons, detectLayoutFrom, List.zipWith_cons_cons]
    congr 1
    · simp [annotatePage, processPage, Nat.add_assoc]
    · exact ih (i + 1)

/-- C5: the annotated PDF has as many pages as the input, and each page's
rectangle count is `images_count` plus the number of tables found by the
independent `find_tables()` call plus the page's character count. -/
theorem claim_c5_annotation_counts (pdf_path : String) (inputs : List PageInput) :
    (annotatedDoc inputs).length = inputs.length
    ∧ (annotatedDoc inputs).map List.length
        = List.zipWith (fun pd p => pd.images_count + p.find_tables.length + p.chars.length)
            (detect_layout pdf_path inputs).pages inputs :=
  ⟨by simp [annotatedDoc], annotate_counts inputs 0⟩

theorem pageLoop_console (fails : Nat → Bool) :
    ∀ (n i : Nat), ∀ e ∈ (pageLoop fails i n).1, ∃ s, e = Effect.consoleOut s := by
  intro n
  induction n with
  | zero => intro i e he; simp [pageLoop] at he
  | succ n ih =>
    intro i e he
    by_cases hf : fails i
    · simp [pageLoop, hf] at he
      exact ⟨_, he⟩
    · simp only [pageLoop, hf, Bool.false_eq_true, if_false, List.mem_cons] at he
      rcases he with he | he
      · exact ⟨_, he⟩
      · exact ih (i + 1) e he

theorem detectLayoutTrace_eq (output_pdf_path output_json_path : String)
    (n : Nat) (fails : Nat → Bool) :
    detectLayoutTrace output_pdf_path output_json_path n fails
      = Effect.mkdirParent output_json_path
          :: ((pageLoop fails 0 n).1
            ++ (if (pageLoop fails 0 n).2 then
                  [Effect.savePdf output_pdf_path,
                   Effect.consoleOut ("Annotated PDF saved as " ++ output_pdf_path),
                   Effect.writeJson output_json_path,
                   Effect.consoleOut ("Results saved to " ++ output_json_path)]
                else [])) := rfl

/-- C6: the very first effect of every call is the creation (if absent) of the
JSON output path's parent directory, before any page is touched; and no other
directory-creation effect occurs — in particular none for the PDF output path. -/
theorem claim_c6_mkdir_json_parent (output_pdf_path output_json_path : String)
    (n : Nat) (fails : Nat → Bool) :
    (detectLayoutTrace output_pdf_path output_json_path n fails).head?
        = some (Effect.mkdirParent output_json_path)
    ∧ ∀ q, Effect.mkdirParent q ∈ detectLayoutTrace output_pdf_path output_json_path n fails
        → q = output_json_path := by
  constructor
  · rfl
  · intro q hq
    rw [detectLayoutTrace_eq] at hq
    rcases List.mem_cons.mp hq with hq | hq
    · injection hq
    · rcases List.mem_append.mp hq with hq | hq
      · rcases pageLoop_console fails n 0 _ hq with ⟨s, hs⟩
        simp at hs
      · by_cases h2 : (pageLoop fails 0 n).2 <;> simp [h2] at hq

theorem pageLoop_fail_false (fails : Nat → Bool) :
    ∀ (n i : Nat), (∃ k, k < n ∧ fails (i + k) = true) → (pageLoop fails i n).2 = false := by
  intro n
  induction n with
  | zero =>
    rintro i ⟨k, hk, _⟩
    exact absurd hk (Nat.not_lt_zero k)
  | succ n ih =>
    rintro i ⟨k, hk, hf⟩
    by_cases h : fails i
    · simp [pageLoop, h]
    · simp only [pageLoop, h, Bool.false_eq_true, if_false]
      cases k with
      | zero =>
        rw [Nat.add_zero] at hf
        exact absurd hf h
      | succ j =>
        apply ih (i + 1)
        refine ⟨j, Nat.lt_of_succ_lt_succ hk, ?_⟩
        have harith : i + 1 + j = i + (j + 1) := by omega
        rw [harith]
        exact hf

theorem pageLoop_all_ok (fails : Nat → Bool) :
    ∀ (n i : Nat), (∀ k, k < n → fails (i + k) = false) →
      pageLoop fails i n
        = ((List.range' i n).map fun j =>
            Effect.consoleOut ("Processing page " ++ toString (j + 1)), true) := by
  intro n
  induction n with
  | zero => intro i _; rfl
  | succ n ih =>
    intro i hall
    have h0 : fails i = false := by
      have := hall 0 (Nat.succ_pos n)
      simpa using this
    have hrec := ih (i + 1) fun k hk => by
      have := hall (k + 1) (Nat.succ_lt_succ hk)
      have harith : i + (k + 1) = i + 1 + k := by omega
      rwa [harith] at this
    simp only [pageLoop, h0, Bool.false_eq_true, if_false, hrec, List.range'_succ,
      List.map_cons]

/-- C7: when no page raises, the trace ends with the PDF save followed by the
JSON write (after all page prints); when some page raises, neither the PDF save
nor the JSON write occurs — no JSON output file is produced. -/
theorem claim_c7_json_after_pdf (output_pdf_path output_json_path : String)
    (n : Nat) (fails : Nat → Bool) :
    ((∀ k, k < n → fails k = false) →
      detectLayoutTrace output_pdf_path output_json_path n fails
        = Effect.mkdirParent output_json_path
            :: ((List.range' 0 n).map fun j =>
                  Effect.consoleOut ("Processing page " ++ toString (j + 1)))
            ++ [Effect.savePdf output_pdf_path,
                Effect.consoleOut ("Annotated PDF saved as " ++ output_pdf_path),
                Effect.writeJson output_json_path,
                Effect.consoleOut ("Results saved to " ++ output_json_path)])
    ∧ ((∃ k, k < n ∧ fails k = true) →
        Effect.writeJson output_json_path
            ∉ detectLayoutTrace output_pdf_path output_json_path n fails
        ∧ Effect.savePdf output_pdf_path
            ∉ detectLayoutTrace output_pdf_path output_json_path n fails) := by
  constructor
  · intro hall
    have h := pageLoop_all_ok fails n 0 fun k hk => by simpa using hall k hk
    rw [detectLayoutTrace_eq, h]
    rfl
  · rintro ⟨k, hk, hf⟩
    have h2 : (pageLoop fails 0 n).2 = false :=
      pageLoop_fail_false fails n 0 ⟨k, hk, by simpa using hf⟩
    constructor <;>
      · intro hmem
        rw [detectLayoutTrace_eq, h2] at hmem
        simp only [Bool.false_eq_true, if_false, List.append_nil, List.mem_cons] at hmem
        rcases hmem with hmem | hmem
        · injection hmem
        · rcases pageLoop_console fails n 0 _ hmem with ⟨s, hs⟩
          simp at hs

/-- C2: the emitted word grouping is exactly the stripped rendering of the
partition of the page's characters into maximal contiguous runs of equal font
size: the runs concatenate back to the character list (no character dropped or
duplicated, each in exactly one run), runs are non-empty, of constant size and
maximal (adjacent runs differ in size), each size's bucket lists the stripped
texts of precisely that size's runs in extraction order, and the page record's
mapping keys embed the numeric size in a display string. -/
theorem claim_c2_word_grouping (p : PageInput) (i : Nat)
    (h : ∀ c ∈ p.chars, c.text ≠ "") :
    (chunks p.chars).flatten = p.chars
    ∧ (∀ r ∈ chunks p.chars, r ≠ [] ∧ ∀ c ∈ r, c.size = headSize r)
    ∧ List.Chain' (fun r₁ r₂ => headSize r₁ ≠ headSize r₂) (chunks p.chars)
    ∧ wordsWithFontSizes p.chars = bucketize (runs p.chars)
    ∧ (∀ s, lookupBucket (wordsWithFontSizes p.chars) s
        = ((chunks p.chars).filter fun r => decide (headSize r = s)).map
            fun r => pyStrip (concatText r))
    ∧ (processPage i p).words_with_font_sizes
        = (wordsWithFontSizes p.chars).map fun pr => ("Size: " ++ toString pr.1, pr.2) :=
  ⟨chunks_flatten _, chunks_runs_shape _, chunks_maximal _,
    wordsWithFontSizes_eq_bucketize _ h, lookupBucket_words _ h, rfl⟩

theorem concatText_data_ws (r : List PChar)
    (hws : ∀ c ∈ r, ∀ ch ∈ c.text.data, ch.isWhitespace = true) :
    ∀ ch ∈ (concatText r).data, ch.isWhitespace = true := by
  induction r with
  | nil =>
    intro ch hch
    simp [concatText] at hch
  | cons c cs ih =>
    intro ch hch
    rw [concatText, String.data_append] at hch
    rcases List.mem_append.mp hch with hch | hch
    · exact hws c (List.mem_cons_self c cs) ch hch
    · exact ih (fun d hd => hws d (List.mem_cons_of_mem c hd)) ch hch

/-- C10: every word emitted into any bucket is stripped of leading and trailing
whitespace, and a run consisting only of whitespace characters is emitted as
the empty string into its size's bucket rather than omitted. -/
theorem claim_c10_words_stripped (p : PageInput)
    (h : ∀ c ∈ p.chars, c.text ≠ "") :
    (∀ pr ∈ wordsWithFontSizes p.chars, ∀ w ∈ pr.2, strippedOk w = true)
    ∧ ∀ r ∈ chunks p.chars,
        (∀ c ∈ r, ∀ ch ∈ c.text.data, ch.isWhitespace = true) →
        pyStrip (concatText r) = ""
        ∧ "" ∈ lookupBucket (wordsWithFontSizes p.chars) (headSize r) := by
  constructor
  · intro pr hpr w hw
    rw [wordsWithFontSizes_eq_bucketize _ h] at hpr
    rcases mem_bucketizeFrom_words _ _ pr hpr w hw with ⟨pr', hpr', _⟩ | ⟨q, _, hq⟩
    · simp at hpr'
    · rw [hq]
      exact pyStrip_strippedOk _
  · intro r hr hws
    have hempty : pyStrip (concatText r) = "" :=
      pyStrip_all_ws (concatText_data_ws r hws)
    refine ⟨hempty, ?_⟩
    rw [lookupBucket_words _ h (headSize r), ← hempty]
    apply List.mem_map_of_mem
    exact List.mem_filter.mpr ⟨hr, by simp⟩

/-! ### JSON round trip and shape -/

theorem mapM_map_some {α β : Type} (f : α → β) (g : β → Option α) (l : List α)
    (h : ∀ x ∈ l, g (f x) = some x) : (l.map f).mapM g = some l := by
  induction l with
  | nil => rfl
  | cons x xs ih =>
    rw [List.map_cons, List.mapM_cons, h x (List.mem_cons_self x xs),
      ih fun y hy => h y (List.mem_cons_of_mem x hy)]
    rfl

theorem decodeCell_encodeCell (c : Option String) : decodeCell (encodeCell c) = some c := by
  cases c <;> rfl

theorem decodeRow_encodeRow (row : List (Option String)) :
    decodeRow (.arr (row.map encodeCell)) = some row := by
  show (row.map encodeCell).mapM decodeCell = some row
  exact mapM_map_some _ _ _ fun c _ => decodeCell_encodeCell c

theorem decodeTable_encodeTable (t : List (List (Option String))) :
    decodeTable (.arr (t.map fun row => Json.arr (row.map encodeCell))) = some t := by
  show (t.map fun row => Json.arr (row.map encodeCell)).mapM decodeRow = some t
  exact mapM_map_some _ _ _ fun row _ => decodeRow_encodeRow row

theorem decodeTables_encodeTables (ts : List (List (List (Option String)))) :
    decodeTables (encodeTables ts) = some ts := by
  show (ts.map fun t => Json.arr (t.map fun row => Json.arr (row.map encodeCell))).mapM
      decodeTable = some ts
  exact mapM_map_some _ _ _ fun t _ => decodeTable_encodeTable t

theorem decodeLine_encodeLine (l : LineRec) : decodeLine (encodeLine l) = some l := rfl

theorem decodeBucket_encodeBucket (kv : String × List String) :
    decodeBucket (kv.1, Json.arr (kv.2.map Json.str)) = some kv := by
  show ((kv.2.map Json.str).mapM fun w =>
      match w with | Json.str s => (some s : Option String) | _ => none).map
        (fun l => (kv.1, l)) = some kv
  rw [mapM_map_some Json.str _ kv.2 fun s _ => rfl]
  rfl

theorem decodePage_encodePage (pd : PageData) :
    decodePage (encodePage pd) = some pd := by
  show (do
      let tables ← decodeTables (encodeTables pd.tables)
      let lines ← (pd.lines.map encodeLine).mapM decodeLine
      let words ← ((pd.words_with_font_sizes.map
          fun kv => (kv.1, Json.arr (kv.2.map Json.str))).mapM decodeBucket)
      some ⟨pd.page_number, pd.title, pd.text, pd.tables_count, pd.images_count,
            tables, pd.lines_count, lines, words⟩) = some pd
  rw [decodeTables_encodeTables,
    mapM_map_some encodeLine decodeLine pd.lines fun x _ => decodeLine_encodeLine x,
    mapM_map_some _ decodeBucket pd.words_with_font_sizes
      fun kv _ => decodeBucket_encodeBucket kv]
  rfl

theorem decodeResults_encodeResults (r : Results) :
    decodeResults (encodeResults r) = some r := by
  show ((r.pages.map encodePage).mapM decodePage).map (fun pages => ⟨r.pdf_path, pages⟩)
      = some r
  rw [mapM_map_some encodePage decodePage r.pages fun pd _ => decodePage_encodePage pd]
  rfl

theorem all_map_general {α β : Type} (f : α → β) (l : List α) (p : β → Bool) :
    (l.map f).all p = l.all fun x => p (f x) := by
  induction l with
  | nil => rfl
  | cons x xs ih => simp [List.all_cons, ih]

theorem cellShape_encodeCell (c : Option String) : cellShape (encodeCell c) = true := by
  cases c <;> rfl

theorem tablesShape_encodeTables (ts : List (List (List (Option String)))) :
    tablesShape (encodeTables ts) = true := by
  show (ts.map fun t => Json.arr (t.map fun row => Json.arr (row.map encodeCell))).all _
      = true
  rw [all_map_general, List.all_eq_true]
  intro t _
  show (t.map fun row => Json.arr (row.map encodeCell)).all _ = true
  rw [all_map_general, List.all_eq_true]
  intro row _
  show (row.map encodeCell).all cellShape = true
  rw [all_map_general, List.all_eq_true]
  intro c _
  exact cellShape_encodeCell c

theorem lineShape_encodeLine (l : LineRec) : lineShape (encodeLine l) = true := rfl

theorem sizeKeyShape_render (q : ℚ) : sizeKeyShape ("Size: " ++ toString q) = true := by
  unfold sizeKeyShape
  rw [String.data_append]
  have h6 : ("Size: " : String).data.length = 6 := rfl
  rw [← h6, List.take_left]
  simp

theorem wordsShape_render (ws : List (ℚ × List String)) :
    wordsShape (Json.obj ((ws.map fun pr => ("Size: " ++ toString pr.1, pr.2)).map
        fun kv => (kv.1, Json.arr (kv.2.map Json.str)))) = true := by
  show ((ws.map fun pr => ("Size: " ++ toString pr.1, pr.2)).map
      fun kv => (kv.1, Json.arr (kv.2.map Json.str))).all _ = true
  rw [List.map_map, all_map_general, List.all_eq_true]
  intro pr _
  rw [Bool.and_eq_true]
  constructor
  · exact sizeKeyShape_render pr.1
  · show (pr.2.map Json.str).all _ = true
    rw [all_map_general, List.all_eq_true]
    intro w _
    rfl

theorem pageShape_processPage (i : Nat) (p : PageInput) :
    pageShape (encodePage (processPage i p)) = true := by
  show (tablesShape (encodeTables (processPage i p).tables)
      && ((processPage i p).lines.map encodeLine).all lineShape
      && wordsShape (Json.obj ((processPage i p).words_with_font_sizes.map
            fun kv => (kv.1, Json.arr (kv.2.map Json.str))))) = true
  rw [Bool.and_eq_true, Bool.and_eq_true]
  refine ⟨⟨tablesShape_encodeTables _, ?_⟩, ?_⟩
  · rw [all_map_general, List.all_eq_true]
    intro l _
    exact lineShape_encodeLine l
  · exact wordsShape_render (wordsWithFontSizes p.chars)

theorem mem_detectLayoutFrom (inputs : List PageInput) :
    ∀ i pd, pd ∈ detectLayoutFrom i inputs → ∃ j p, p ∈ inputs ∧ pd = processPage j p := by
  induction inputs with
  | nil => intro i pd hpd; simp [detectLayoutFrom] at hpd
  | cons p rest ih =>
    intro i pd hpd
    rcases List.mem_cons.mp hpd with hpd | hpd
    · exact ⟨i, p, List.mem_cons_self p rest, hpd⟩
    · rcases ih (i + 1) pd hpd with ⟨j, q, hq, hpd'⟩
      exact ⟨j, q, List.mem_cons_of_mem p hq, hpd'⟩

theorem reportShape_detect_layout (pdf_path : String) (inputs : List PageInput) :
    reportShape (encodeResults (detect_layout pdf_path inputs)) = true := by
  show ((detect_layout pdf_path inputs).pages.map encodePage).all pageShape = true
  rw [all_map_general, List.all_eq_true]
  intro pd hpd
  rcases mem_detectLayoutFrom inputs 0 pd hpd with ⟨j, p, _, rfl⟩
  exact pageShape_processPage j p

/-- C9: decoding the encoded report loses nothing (a standard JSON parser
reading the written file back yields the same JSON value, hence the same
structure), and the encoded report matches the documented shape: a string
`pdf_path` and an array of page records with the nine documented keys, the
word buckets keyed `"Size: <number>"`. -/
theorem claim_c9_json_roundtrip (pdf_path : String) (inputs : List PageInput) :
    decodeResults (encodeResults (detect_layout pdf_path inputs))
        = some (detect_layout pdf_path inputs)
    ∧ reportShape (encodeResults (detect_layout pdf_path inputs)) = true :=
  ⟨decodeResults_encodeResults _, reportShape_detect_layout pdf_path inputs⟩

/-! ### Concrete witnesses -/

/-- A five-character page with two font-size runs: `"Big"` at size 20 and
`" s"` at size 10. -/
def samplePage : PageInput :=
  { extract_text := "Big s"
    tables := []
    images := []
    lines := []
    chars := [{ text := "B", size := 20 }, { text := "i", size := 20 },
              { text := "g", size := 20 }, { text := " ", size := 10 },
              { text := "s", size := 10 }]
    find_tables := [] }

/-- A page whose first run consists only of whitespace characters. -/
def wsPage : PageInput :=
  { extract_text := "a"
    tables := []
    images := []
    lines := []
    chars := [{ text := " ", size := 20 }, { text := "a", size := 10 }]
    find_tables := [] }

theorem claim_c2_word_grouping_witness :
    (chunks samplePage.chars).flatten = samplePage.chars
    ∧ (∀ r ∈ chunks samplePage.chars, r ≠ [] ∧ ∀ c ∈ r, c.size = headSize r)
    ∧ List.Chain' (fun r₁ r₂ => headSize r₁ ≠ headSize r₂) (chunks samplePage.chars)
    ∧ wordsWithFontSizes samplePage.chars = bucketize (runs samplePage.chars)
    ∧ (∀ s, lookupBucket (wordsWithFontSizes samplePage.chars) s
        = ((chunks samplePage.chars).filter fun r => decide (headSize r = s)).map
            fun r => pyStrip (concatText r))
    ∧ (processPage 0 samplePage).words_with_font_sizes
        = (wordsWithFontSizes samplePage.chars).map
            fun pr => ("Size: " ++ toString pr.1, pr.2) :=
  claim_c2_word_grouping samplePage 0 (by decide)

theorem claim_c10_words_stripped_witness :
    (∀ pr ∈ wordsWithFontSizes wsPage.chars, ∀ w ∈ pr.2, strippedOk w = true)
    ∧ ∀ r ∈ chunks wsPage.chars,
        (∀ c ∈ r, ∀ ch ∈ c.text.data, ch.isWhitespace = true) →
        pyStrip (concatText r) = ""
        ∧ "" ∈ lookupBucket (wordsWithFontSizes wsPage.chars) (headSize r) :=
  claim_c10_words_stripped wsPage (by decide)

theorem claim_c6_mkdir_json_parent_witness :
    (detectLayoutTrace "ann.pdf" "res.json" 1 (fun _ => false)).head?
        = some (Effect.mkdirParent "res.json")
    ∧ "res.json" = "res.json" :=
  ⟨(claim_c6_mkdir_json_parent "ann.pdf" "res.json" 1 (fun _ => false)).1,
   (claim_c6_mkdir_json_parent "ann.pdf" "res.json" 1 (fun _ => false)).2 "res.json"
     (by decide)⟩

theorem claim_c7_json_after_pdf_witness :
    (detectLayoutTrace "ann.pdf" "res.json" 1 (fun _ => false)
        = Effect.mkdirParent "res.json"
            :: ((List.range' 0 1).map fun j =>
                  Effect.consoleOut ("Processing page " ++ toString (j + 1)))
            ++ [Effect.savePdf "ann.pdf",
                Effect.consoleOut ("Annotated PDF saved as " ++ "ann.pdf"),
                Effect.writeJson "res.json",
                Effect.consoleOut ("Results saved to " ++ "res.json")])
    ∧ (Effect.writeJson "res.json"
          ∉ detectLayoutTrace "ann.pdf" "res.json" 2 (fun k => decide (k = 1))
        ∧ Effect.savePdf "ann.pdf"
          ∉ detectLayoutTrace "ann.pdf" "res.json" 2 (fun k => decide (k = 1))) :=
  ⟨(claim_c7_json_after_pdf "ann.pdf" "res.json" 1 (fun _ => false)).1 fun k hk => rfl,
   (claim_c7_json_after_pdf "ann.pdf" "res.json" 2 (fun k => decide (k = 1))).2
     ⟨1, by decide, by decide⟩⟩
